import Mathlib

/-!
Shallow embedding of the redaction-detection and text-metrics core of the
`unredact` repository (src/unredact), together with theorems checking the
natural-language specification against it.

Conventions used throughout:
* Document-point coordinates (floats in the source) are modelled as `ℚ`.
* Raster pixels, row indices and thresholds are `Nat`, glyph advances and
  font sizes are `ℤ`, matching the Python integers.
* The document-structure collaborator (PyMuPDF) is modelled at its interface
  boundary: a document is a list of page records carrying the annotation
  list, the drawing list, the page dimensions and the rendered grayscale
  raster that the source code reads from it.
* Python exceptions are modelled with `Except`.
-/

namespace Unredact

/-- A detected redaction rectangle: 0-indexed `page` and `bbox`
`(x0, y0, x1, y1)` in PDF points (source: `RedactionBox` in
`pdf_redactions.py`). -/
structure RedactionBox where
  page : Nat
  bbox : ℚ × ℚ × ℚ × ℚ
  deriving DecidableEq, Repr

/-- Property `RedactionBox.width = bbox[2] - bbox[0]`. -/
def RedactionBox.width (r : RedactionBox) : ℚ := r.bbox.2.2.1 - r.bbox.1

/-- Property `RedactionBox.height = bbox[3] - bbox[1]`. -/
def RedactionBox.height (r : RedactionBox) : ℚ := r.bbox.2.2.2 - r.bbox.2.1

/-- Convenience accessor for the left edge `x0` of a box. -/
def RedactionBox.x0 (r : RedactionBox) : ℚ := r.bbox.1

/-- Convenience accessor for the top edge `y0` of a box. -/
def RedactionBox.y0 (r : RedactionBox) : ℚ := r.bbox.2.1

/-- Absolute difference of two naturals, i.e. `abs(a - b)` on Python ints
whose values are nonnegative pixel coordinates. -/
def absDiff (a b : Nat) : Nat := max a b - min a b

/-- The pixel loop of `_get_dark_runs` (`pdf_redactions.py` lines 64-84).
`x` is the current pixel index, `ps` the remaining pixels of the row,
`inRun`/`start` the loop state, `rowWidth` the total row width used to close
a run that reaches the end of the row. -/
def darkRunsGo (threshold minWidth rowWidth : Nat) :
    Nat → List Nat → Bool → Nat → List (Nat × Nat)
  | _, [], inRun, start =>
      if inRun && decide (minWidth ≤ rowWidth - start) then [(start, rowWidth)] else []
  | x, p :: ps, inRun, start =>
      if p < threshold then
        darkRunsGo threshold minWidth rowWidth (x + 1) ps true (if inRun then start else x)
      else if inRun && decide (minWidth ≤ x - start) then
        (start, x) :: darkRunsGo threshold minWidth rowWidth (x + 1) ps false start
      else
        darkRunsGo threshold minWidth rowWidth (x + 1) ps false start

/-- `_get_dark_runs(samples, y, width, threshold, min_width)` applied to one
raster row (the source indexes `samples[y*width + x]`; here `row` is that
row of pixel intensities). -/
def getDarkRuns (row : List Nat) (threshold minWidth : Nat) : List (Nat × Nat) :=
  darkRunsGo threshold minWidth row.length 0 row false 0

/-- `_runs_match(a, b, tolerance)` (`pdf_redactions.py` lines 87-96): equal
run counts, a non-empty first run set, and every corresponding pair of run
endpoints within `tolerance` pixels. -/
def runsMatch (a b : List (Nat × Nat)) (tol : Nat) : Bool :=
  a.length == b.length && !a.isEmpty &&
    (a.zip b).all fun rr =>
      decide (absDiff rr.1.1 rr.2.1 ≤ tol) && decide (absDiff rr.1.2 rr.2.2 ≤ tol)

/-- State of the scanline loop in `_find_image_redactions`: the most recent
run set (`prev_runs`) and the row at which it started (`rect_start_y`). -/
structure ScanState where
  prevRuns : List (Nat × Nat)
  rectStartY : Nat
  deriving DecidableEq, Repr

/-- The box appended for one finalized run: horizontal extent
`[run.0 * scale_x, run.1 * scale_x)`, vertical extent
`[rect_start_y * scale_y, y * scale_y)`. -/
def boxOfRun (pageNum : Nat) (scaleX scaleY : ℚ) (startY endY : Nat)
    (run : Nat × Nat) : RedactionBox :=
  ⟨pageNum, (run.1 * scaleX, startY * scaleY, run.2 * scaleX, endY * scaleY)⟩

/-- The "close previous rectangles" block of `_find_image_redactions`
(lines 134-144, also reused for the final close at lines 149-159): one box
per run of `prev_runs`, provided `prev_runs` is non-empty and the region
spanned at least `min_rows` rows. -/
def closeBoxes (minRows pageNum : Nat) (scaleX scaleY : ℚ)
    (st : ScanState) (y : Nat) : List RedactionBox :=
  if !st.prevRuns.isEmpty && decide (minRows ≤ y - st.rectStartY) then
    st.prevRuns.map (boxOfRun pageNum scaleX scaleY st.rectStartY y)
  else []

/-- One iteration of the row loop of `_find_image_redactions` (lines
128-146): a matching row leaves the state untouched, a mismatching row
finalizes the open run set and re-anchors the state at the current row. -/
def scanStep (tol minRows pageNum : Nat) (scaleX scaleY : ℚ)
    (acc : ScanState × List RedactionBox) (y : Nat) (runs : List (Nat × Nat)) :
    ScanState × List RedactionBox :=
  if runsMatch runs acc.1.prevRuns tol then acc
  else (⟨runs, y⟩, acc.2 ++ closeBoxes minRows pageNum scaleX scaleY acc.1 y)

/-- The body of the row loop: compute the current row's dark runs and apply
one `scanStep` to the accumulated state. -/
def scanFoldF (tol minRows pageNum : Nat) (scaleX scaleY : ℚ)
    (threshold minRunPx : Nat) (acc : ScanState × List RedactionBox)
    (yrow : Nat × List Nat) : ScanState × List RedactionBox :=
  scanStep tol minRows pageNum scaleX scaleY acc yrow.1
    (getDarkRuns yrow.2 threshold minRunPx)

/-- The row loop of `_find_image_redactions` folded over all rows of a page
together with their indices. -/
def scanRows (tol minRows threshold minRunPx pageNum : Nat) (scaleX scaleY : ℚ)
    (rows : List (List Nat)) : ScanState × List RedactionBox :=
  (rows.enum).foldl (scanFoldF tol minRows pageNum scaleX scaleY threshold minRunPx)
    (⟨[], 0⟩, [])

/-- The per-page scanline pass of `_find_image_redactions`: fold the row
loop over all rows (with their indices), then close whatever run set is
still open at `y = h` (end of page). -/
def scanPage (tol minRows threshold minRunPx pageNum : Nat) (scaleX scaleY : ℚ)
    (rows : List (List Nat)) : List RedactionBox :=
  (scanRows tol minRows threshold minRunPx pageNum scaleX scaleY rows).2 ++
    closeBoxes minRows pageNum scaleX scaleY
      (scanRows tol minRows threshold minRunPx pageNum scaleX scaleY rows).1 rows.length

/-- Python `int(...)` truncation toward zero on a rational value. -/
def pyInt (q : ℚ) : ℤ := if q < 0 then ⌈q⌉ else ⌊q⌋

/-- A page annotation as read from the document collaborator:
`typeFst = annot.type[0]` and its rectangle. -/
structure Annot where
  typeFst : Nat
  rect : ℚ × ℚ × ℚ × ℚ
  deriving DecidableEq, Repr

/-- A vector drawing as read from `page.get_drawings()`: optional fill
color channels and the rectangle (normalized, `x0 ≤ x1` and `y0 ≤ y1`,
as the drawing enumerator reports it). -/
structure Drawing where
  fill : Option (List ℚ)
  rect : ℚ × ℚ × ℚ × ℚ
  deriving DecidableEq, Repr

/-- Width `x1 - x0` of a rectangle. -/
def rectW (r : ℚ × ℚ × ℚ × ℚ) : ℚ := r.2.2.1 - r.1

/-- Height `y1 - y0` of a rectangle. -/
def rectH (r : ℚ × ℚ × ℚ × ℚ) : ℚ := r.2.2.2 - r.2.1

/-- One page of a document, at the interface boundary of the document
collaborator: page dimensions in points, the annotation and drawing lists,
and the grayscale raster (`pixW` columns, one `List Nat` of intensities per
row) produced by `page.get_pixmap`. -/
structure Page where
  widthPt : ℚ
  heightPt : ℚ
  annots : List Annot
  drawings : List Drawing
  pixW : Nat
  rows : List (List Nat)
  deriving DecidableEq, Repr

/-- `fitz.PDF_ANNOT_REDACT`. -/
def pdfAnnotRedact : Nat := 12

/-- `_find_annotation_redactions` (lines 29-40): every annotation whose
type marks it as a redaction yields a box with its rectangle verbatim. -/
def findAnnotationRedactions (doc : List Page) : List RedactionBox :=
  doc.enum.flatMap fun pnpg =>
    pnpg.2.annots.filterMap fun a =>
      if a.typeFst == pdfAnnotRedact then some ⟨pnpg.1, a.rect⟩ else none

/-- `_find_vector_redactions` (lines 43-61): filled drawings whose fill
channels are all at most 0.1 and whose rectangle is at least 15 points wide
and 5 points tall. -/
def findVectorRedactions (doc : List Page) : List RedactionBox :=
  doc.enum.flatMap fun pnpg =>
    pnpg.2.drawings.filterMap fun d =>
      match d.fill with
      | none => none
      | some cs =>
          if cs.all (fun c => decide (c ≤ 1/10)) &&
              decide (15 ≤ rectW d.rect) && decide (5 ≤ rectH d.rect) then
            some ⟨pnpg.1, d.rect⟩
          else none

/-- `run_tolerance = 3` (pixels of wobble allowed between rows). -/
def runTolerance : Nat := 3

/-- `min_rows = 5` (minimum consecutive dark rows to form a rectangle). -/
def minRowsConst : Nat := 5

/-- `_find_image_redactions` (lines 99-163): per page compute the scale
factors and the minimum run length in pixels, run the scanline pass, and
finally drop every box whose height is below `min_height_pt`. -/
def findImageRedactions (darkThreshold : Nat) (minHeightPt minWidthPt : ℚ)
    (doc : List Page) : List RedactionBox :=
  let results := doc.enum.flatMap fun pnpg =>
    let scaleX := pnpg.2.widthPt / pnpg.2.pixW
    let scaleY := pnpg.2.heightPt / pnpg.2.rows.length
    let minRunPx := (pyInt (minWidthPt / scaleX)).toNat
    scanPage runTolerance minRowsConst darkThreshold minRunPx pnpg.1 scaleX scaleY pnpg.2.rows
  results.filter fun r => decide (minHeightPt ≤ r.height)

/-- The sort predicate of `find_redactions` (line 188): Python's stable
sort with key `(page, bbox[1], bbox[0])`. -/
def boxLE (a b : RedactionBox) : Bool :=
  decide (a.page < b.page) ||
    (a.page == b.page &&
      (decide (a.y0 < b.y0) || (a.y0 == b.y0 && decide (a.x0 ≤ b.x0))))

/-- `find_redactions` (lines 166-189): concatenate the three detector
outputs and sort by `(page, y0, x0)`. -/
def find_redactions (doc : List Page) : List RedactionBox :=
  let results := findAnnotationRedactions doc ++ findVectorRedactions doc ++
    findImageRedactions 80 5 15 doc
  results.mergeSort boxLE

/-- An 8-pixel raster row whose dark run is `[0, 4)`. -/
def rowD0 : List Nat := [0, 0, 0, 0, 255, 255, 255, 255]

/-- An 8-pixel raster row whose dark run is `[2, 6)`. -/
def rowD2 : List Nat := [255, 255, 0, 0, 0, 0, 255, 255]

/-- An 8-pixel raster row whose dark run is `[4, 8)`. -/
def rowD4 : List Nat := [255, 255, 255, 255, 0, 0, 0, 0]

/-- An 8-pixel raster row with no dark pixels. -/
def rowBlank : List Nat := [255, 255, 255, 255, 255, 255, 255, 255]

/-- Raster whose dark run drifts 2 px per row at first (within the 3 px
tolerance row to row, but 4 px from the anchor row by row 2): runs start
at 0, 2, 4, 4, 4, 4, 4, 4. -/
def driftRows : List (List Nat) :=
  [rowD0, rowD2, rowD4, rowD4, rowD4, rowD4, rowD4, rowD4]

/-- Synthetic page holding `driftRows`.  Scale factors: 5 pt/px
horizontally, 1 pt/px vertically; `min_run_px = int(15 / 5) = 3`. -/
def driftPage : Page :=
  { widthPt := 40, heightPt := 8, annots := [], drawings := [], pixW := 8,
    rows := driftRows }

/-- Raster with a 4-row dark region (fewer than `min_rows = 5`) that recurs
identically after two blank rows, and ends blank. -/
def shortRecurRows : List (List Nat) :=
  [rowD0, rowD0, rowD0, rowD0, rowBlank, rowBlank,
   rowD0, rowD0, rowD0, rowD0, rowBlank, rowBlank]

/-- Synthetic page holding `shortRecurRows` (same scales as `driftPage`). -/
def shortRecurPage : Page :=
  { widthPt := 40, heightPt := 12, annots := [], drawings := [], pixW := 8,
    rows := shortRecurRows }

/-- A document whose only feature is a redaction annotation with a
degenerate (zero-area) rectangle. -/
def annotCexDoc : List Page :=
  [{ widthPt := 612, heightPt := 792, annots := [⟨pdfAnnotRedact, (0, 0, 0, 0)⟩],
     drawings := [], pixW := 1, rows := [[255]] }]

/-- A document with a single, well-formed redaction annotation. -/
def annotWitDoc : List Page :=
  [{ widthPt := 10, heightPt := 10, annots := [⟨pdfAnnotRedact, (1, 2, 3, 4)⟩],
     drawings := [], pixW := 1, rows := [[255]] }]

/-- A detected box has run-shaped horizontal extent: its left and right
edges are a dark run's endpoints scaled by `scaleX`, with the run
non-degenerate. -/
def runShape (scaleX : ℚ) (b : RedactionBox) : Prop :=
  ∃ s e : Nat, s < e ∧ b.bbox.1 = s * scaleX ∧ b.bbox.2.2.1 = e * scaleX

/-- The closed set of supported canonical font families (`FontT` in
`widths.py`). -/
inductive FontT where
  | arial
  | calibri
  | cambria
  | courierNew
  | helvetica
  | timesNewRoman
  deriving DecidableEq, Repr

/-- The literal family name string of each `FontT` value. -/
def fontName : FontT → String
  | .arial => "arial"
  | .calibri => "calibri"
  | .cambria => "cambria"
  | .courierNew => "courier new"
  | .helvetica => "helvetica"
  | .timesNewRoman => "times new roman"

/-- `FONT_FILES` (`widths.py` lines 24-31): candidate file names per family,
in search order. -/
def FONT_FILES : FontT → List String
  | .arial => ["Arial.ttf", "LiberationSans-Regular.ttf", "Arimo-Regular.ttf"]
  | .calibri => ["Calibri.ttf", "Carlito-Regular.ttf"]
  | .cambria => ["Cambria.ttf", "Caladea-Regular.ttf"]
  | .courierNew => ["Courier New.ttf", "cour.ttf", "LiberationMono-Regular.ttf",
      "Cousine-Regular.ttf"]
  | .helvetica => ["Helvetica.ttc", "Helvetica.ttf", "Arial.ttf",
      "LiberationSans-Regular.ttf", "Arimo-Regular.ttf"]
  | .timesNewRoman => ["Times New Roman.ttf", "times.ttf",
      "LiberationSerif-Regular.ttf", "Tinos-Regular.ttf"]

/-- The iteration order of `list(FONT_FILES.keys())` in `widths.py`. -/
def allFonts : List FontT :=
  [.arial, .calibri, .cambria, .courierNew, .helvetica, .timesNewRoman]

/-- Boolean test that `pat` is an initial segment of `l`. -/
def seqStartsWith : List Char → List Char → Bool
  | _, [] => true
  | [], _ :: _ => false
  | h :: t, p :: q => h == p && seqStartsWith t q

/-- Boolean test that `pat` occurs as a contiguous subsequence of `hay`,
Python's `pat in hay` on strings. -/
def containsSeq : List Char → List Char → Bool
  | [], pat => pat.isEmpty
  | h :: t, pat => seqStartsWith (h :: t) pat || containsSeq t pat

/-- Python's substring containment `pat in hay`. -/
def strContains (hay pat : String) : Bool :=
  containsSeq hay.data pat.data

/-- Python's `str.lower()`: lowercase every character. -/
def lowerString (s : String) : String :=
  String.mk (s.data.map Char.toLower)

/-- Python's `str.strip()`: drop leading and trailing whitespace. -/
def pyStrip (s : String) : String :=
  String.mk
    (((s.data.dropWhile Char.isWhitespace).reverse.dropWhile Char.isWhitespace).reverse)

/-- `_FONT_NAME_MAP` (`pdf_info.py` lines 13-28): ordered substring rules,
more specific substrings first. -/
def FONT_NAME_MAP : List (String × FontT) :=
  [("liberation sans", .arial),
   ("liberation mono", .courierNew),
   ("liberation serif", .timesNewRoman),
   ("arial", .arial),
   ("arimo", .arial),
   ("helvetica", .helvetica),
   ("calibri", .calibri),
   ("carlito", .calibri),
   ("cambria", .cambria),
   ("caladea", .cambria),
   ("courier", .courierNew),
   ("cousine", .courierNew),
   ("times", .timesNewRoman),
   ("tinos", .timesNewRoman)]

/-- The rule loop of `_match_font`: first rule whose substring occurs in the
(already lowercased) name wins. -/
def matchFontGo (lower : String) : List (String × FontT) → Option FontT
  | [] => none
  | (sub, f) :: rest =>
      if strContains lower sub then some f else matchFontGo lower rest

/-- `_match_font` (`pdf_info.py` lines 73-79). -/
def match_font (pdfFontName : String) : Option FontT :=
  matchFontGo (lowerString pdfFontName) FONT_NAME_MAP

/-- Python's `round()` on a rational: round half to even (banker's
rounding), as used for font sizes and pixel widths. -/
def pyRound (q : ℚ) : ℤ :=
  if q - ⌊q⌋ < 1 / 2 then ⌊q⌋
  else if 1 / 2 < q - ⌊q⌋ then ⌊q⌋ + 1
  else if ⌊q⌋ % 2 = 0 then ⌊q⌋ else ⌊q⌋ + 1

/-- `FontInfo` (`pdf_info.py` lines 31-53). -/
structure FontInfo where
  name : String
  size : ℤ
  bold : Bool
  italic : Bool
  monospaced : Bool
  serif : Bool
  color : Nat
  matchedFont : Option FontT
  deriving DecidableEq, Repr

/-- `TextSpan` (`pdf_info.py` lines 56-70). -/
structure TextSpan where
  text : String
  font : FontInfo
  page : Nat
  bbox : ℚ × ℚ × ℚ × ℚ
  deriving DecidableEq, Repr

/-- A leaf text run as reported by the text-structure collaborator
(`page.get_text("dict")` span record). -/
structure RawSpan where
  text : String
  flags : Nat
  size : ℚ
  color : Nat
  fontName : String
  bbox : ℚ × ℚ × ℚ × ℚ
  deriving DecidableEq, Repr

/-- A line of the text structure. -/
structure TextLine where
  spans : List RawSpan
  deriving DecidableEq, Repr

/-- A block of the text structure with its `type` field (0 = text). -/
structure TextBlock where
  btype : Nat
  lines : List TextLine
  deriving DecidableEq, Repr

/-- One page's text structure. -/
structure PageText where
  blocks : List TextBlock
  deriving DecidableEq, Repr

/-- The `FontInfo` built from one raw span (`pdf_info.py` lines 110-119):
size rounded, the four style bits decoded with masks 16/2/8/4, and the
matched family resolved via `_match_font`. -/
def spanFontInfo (rs : RawSpan) : FontInfo :=
  { name := rs.fontName
    size := pyRound rs.size
    bold := rs.flags &&& 16 != 0
    italic := rs.flags &&& 2 != 0
    monospaced := rs.flags &&& 8 != 0
    serif := rs.flags &&& 4 != 0
    color := rs.color
    matchedFont := match_font rs.fontName }

/-- The pure extraction loop of `extract_font_info` (`pdf_info.py` lines
100-126): walk pages, text blocks, lines and spans; skip spans whose text
is empty after trimming; store the raw text verbatim. -/
def extract_font_info (doc : List PageText) : List TextSpan :=
  doc.enum.flatMap fun pnpage =>
    (pnpage.2.blocks.filter fun b => b.btype == 0).flatMap fun b =>
      b.lines.flatMap fun ln =>
        (ln.spans.filter fun rs => !(pyStrip rs.text == "")).map fun rs =>
          { text := rs.text, font := spanFontInfo rs, page := pnpage.1,
            bbox := rs.bbox }

/-- A loaded font face as exposed by the text-shaping collaborator: its
units-per-em and, for each feature configuration (kerning, ligatures) and
character, the horizontal advance produced when shaping at scale
`(upem, upem)`.  The shaping engine itself is external (spec section 6);
it is modelled as per-character advances, which is exact for the repeated
single-glyph strings the properties below quantify over. -/
structure Face where
  upem : ℤ
  advance : Bool → Bool → Char → ℤ

/-- `FontCache` (`widths.py` lines 65-79): per-family loaded faces (the
`upem` table of the source is the `upem` field of each face). -/
structure FontCache where
  faces : List (FontT × Face)

/-- Dictionary lookup `cache.faces[font]`, `none` modelling `KeyError`. -/
def FontCache.find? (c : FontCache) (font : FontT) : Option Face :=
  (c.faces.find? fun p => p.1 == font).map fun p => p.2

/-- Operating systems distinguished by `platform.system()`. -/
inductive OSKind where
  | darwin
  | windows
  | linux
  deriving DecidableEq, Repr

/-- The per-OS ordered search directories of `_get_font_path`
(`widths.py` lines 39-52). -/
def searchPaths (home : String) : OSKind → List String
  | .darwin => ["/System/Library/Fonts", "/Library/Fonts", home ++ "/Library/Fonts"]
  | .windows => ["C:\\Windows\\Fonts"]
  | .linux => ["/usr/share/fonts", "/usr/local/share/fonts", home ++ "/.fonts"]

/-- The filesystem at the interface boundary: direct existence of
`base/filename`, and the first match of `base.rglob(filename)`. -/
structure FileSystem where
  pathExists : String → Bool
  rglobFirst : String → String → Option String

/-- The inner loop of `_get_font_path` for one filename: first base
directory where the candidate exists directly or by recursive glob. -/
def findInPaths (fsys : FileSystem) (bases : List String) (filename : String) :
    Option String :=
  match bases with
  | [] => none
  | base :: rest =>
      if fsys.pathExists (base ++ "/" ++ filename) then
        some (base ++ "/" ++ filename)
      else
        match fsys.rglobFirst base filename with
        | some m => some m
        | none => findInPaths fsys rest filename

/-- The outer loop of `_get_font_path`: first filename found anywhere. -/
def findFirstFile (fsys : FileSystem) (bases : List String) :
    List String → Option String
  | [] => none
  | fn :: rest =>
      match findInPaths fsys bases fn with
      | some p => some p
      | none => findFirstFile fsys bases rest

/-- An ASCII single quote, used by Python's `repr` of a string. -/
def sq : String := String.singleton (Char.ofNat 39)

/-- Python's `repr` of a list of plain strings. -/
def pyReprList (l : List String) : String :=
  "[" ++ String.intercalate ", " (l.map fun s => sq ++ s ++ sq) ++ "]"

/-- The message of the `FileNotFoundError` raised by `_get_font_path`
(`widths.py` line 62). -/
def fontNotFoundMsg (filenames : List String) : String :=
  "Font file not found: " ++ pyReprList filenames

/-- `_get_font_path` (`widths.py` lines 34-62): search every candidate
filename over the OS's directories; raise `FileNotFoundError` naming the
candidate list when nothing is found. -/
def get_font_path (fsys : FileSystem) (os : OSKind) (home : String)
    (font : FontT) : Except String String :=
  match findFirstFile fsys (searchPaths home os) (FONT_FILES font) with
  | some p => Except.ok p
  | none => Except.error (fontNotFoundMsg (FONT_FILES font))

/-- The loading loop of `FontCache.__init__`: resolve each requested
family's path and load its face, propagating the first failure. -/
def initFaces (fsys : FileSystem) (os : OSKind) (home : String)
    (loader : String → Face) : List FontT → List (FontT × Face) →
    Except String (List (FontT × Face))
  | [], acc => Except.ok acc
  | f :: rest, acc =>
      match get_font_path fsys os home f with
      | Except.error e => Except.error e
      | Except.ok p => initFaces fsys os home loader rest (acc ++ [(f, loader p)])

/-- `FontCache.__init__` (`widths.py` lines 68-79): load the requested
fonts, or all known fonts when `fonts is None`; a missing font file aborts
construction with the error, producing no cache. -/
def FontCache.init (fsys : FileSystem) (os : OSKind) (home : String)
    (loader : String → Face) (fonts : Option (List FontT)) :
    Except String FontCache :=
  match initFaces fsys os home loader (fonts.getD allFonts) [] with
  | Except.error e => Except.error e
  | Except.ok faces => Except.ok ⟨faces⟩

/-- Sum of the advances of every glyph produced for `s` (`calculate_width`
sums `pos.x_advance` over the shaped buffer). -/
def totalAdvance (face : Face) (kerning ligatures : Bool) (s : String) : ℤ :=
  (s.data.map (face.advance kerning ligatures)).sum

/-- `calculate_width` (`widths.py` lines 82-127): look the family up in the
cache (`none` models the `KeyError` on a missing family), shape at scale
`upem`, sum the advances, convert with `total * size / upem` and round. -/
def calculate_width (string : String) (font : FontT) (size : ℤ)
    (cache : FontCache) (kerning ligatures : Bool) : Option ℤ :=
  match cache.find? font with
  | none => none
  | some face =>
      some (pyRound ((totalAdvance face kerning ligatures string : ℚ) *
        (size : ℚ) / (face.upem : ℚ)))

/-- A concrete raw span whose text has leading and trailing whitespace. -/
def rawSpanWit : RawSpan :=
  { text := "  hi ", flags := 3, size := 12, color := 0, fontName := "Arial",
    bbox := (0, 0, 1, 1) }

/-- A one-page document containing only `rawSpanWit`. -/
def spanWitDoc : List PageText := [⟨[⟨0, [⟨[rawSpanWit]⟩]⟩]⟩]

/-- The `TextSpan` extracted from `spanWitDoc`. -/
def textSpanWit : TextSpan :=
  { text := rawSpanWit.text, font := spanFontInfo rawSpanWit, page := 0,
    bbox := rawSpanWit.bbox }

/-- A filesystem with no files at all. -/
def emptyFS : FileSystem := ⟨fun _ => false, fun _ _ => none⟩

/-- A face whose every glyph has zero advance (as real fonts have for
zero-width characters such as combining marks), with 1000 units per em. -/
def zeroFace : Face := ⟨1000, fun _ _ _ => 0⟩

/-- A loader returning `zeroFace` for every path. -/
def zeroLoader : String → Face := fun _ => zeroFace

/-- A cache holding `zeroFace` for the arial family. -/
def zeroCache : FontCache := ⟨[(.arial, zeroFace)]⟩

/-- A face whose every glyph advances one full em (1000 units at
1000 units per em). -/
def oneEmFace : Face := ⟨1000, fun _ _ _ => 1000⟩

/-- A cache holding `oneEmFace` for the arial family. -/
def oneEmCache : FontCache := ⟨[(.arial, oneEmFace)]⟩

/-- Outcome trace of one detection/extraction call: the returned value or
the propagated exception, whether the document was opened, and whether its
handle was closed before control returned to the caller. -/
structure RunTrace (α : Type) where
  result : Except Unit α
  opened : Bool
  closed : Bool

/-- Control-flow model of `find_redactions` (`pdf_redactions.py` lines
180-189): open the document, run the three detectors in order, then
`doc.close()` and sort.  Each detector is a call into the document
collaborator that may raise; `doc.close()` is only reached after all three
return. -/
def find_redactions_run (openR : Except Unit (List Page))
    (ann vec img : List Page → Except Unit (List RedactionBox)) :
    RunTrace (List RedactionBox) :=
  match openR with
  | Except.error e => ⟨Except.error e, false, false⟩
  | Except.ok doc =>
      match ann doc with
      | Except.error e => ⟨Except.error e, true, false⟩
      | Except.ok r1 =>
          match vec doc with
          | Except.error e => ⟨Except.error e, true, false⟩
          | Except.ok r2 =>
              match img doc with
              | Except.error e => ⟨Except.error e, true, false⟩
              | Except.ok r3 =>
                  ⟨Except.ok ((r1 ++ r2 ++ r3).mergeSort boxLE), true, true⟩

/-- One page of an open document whose text structure is obtained by a
`page.get_text` call that may raise. -/
structure RawPage where
  getText : Except Unit PageText

/-- Sequentially read every page's text structure, propagating the first
failure (the page loop of `extract_font_info`). -/
def collectPages : List RawPage → Except Unit (List PageText)
  | [] => Except.ok []
  | p :: rest =>
      match p.getText with
      | Except.error e => Except.error e
      | Except.ok pt =>
          match collectPages rest with
          | Except.error e => Except.error e
          | Except.ok pts => Except.ok (pt :: pts)

/-- Control-flow model of `extract_font_info` (`pdf_info.py` lines
97-129): open the document, walk the pages building spans, then
`doc.close()`; a failure while reading any page propagates before the
close is reached. -/
def extract_font_info_run (openR : Except Unit (List RawPage)) :
    RunTrace (List TextSpan) :=
  match openR with
  | Except.error e => ⟨Except.error e, false, false⟩
  | Except.ok pages =>
      match collectPages pages with
      | Except.error e => ⟨Except.error e, true, false⟩
      | Except.ok pts => ⟨Except.ok (extract_font_info pts), true, true⟩

lemma absDiff_self (a : Nat) : absDiff a a = 0 := by
  simp [absDiff]

lemma zip_self_eq_map (R : List (Nat × Nat)) : R.zip R = R.map fun r => (r, r) := by
  induction R with
  | nil => rfl
  | cons a t ih => simpa using ih

lemma runsMatch_self {R : List (Nat × Nat)} (h : R ≠ []) (tol : Nat) :
    runsMatch R R tol = true := by
  have h3 : ((R.map fun r => (r, r)).all fun rr =>
      decide (absDiff rr.1.1 rr.2.1 ≤ tol) && decide (absDiff rr.1.2 rr.2.2 ≤ tol)) = true := by
    simp only [List.all_eq_true, List.mem_map]
    rintro ⟨a, b⟩ ⟨⟨x, y⟩, hmem, hh⟩
    cases hh
    simp [absDiff_self]
  unfold runsMatch
  rw [zip_self_eq_map, h3]
  simp [h]

lemma runsMatch_right_nil {R : List (Nat × Nat)} (h : R ≠ []) (tol : Nat) :
    runsMatch R [] tol = false := by
  cases R with
  | nil => exact absurd rfl h
  | cons a t => simp [runsMatch]

lemma runsMatch_left_nil (b : List (Nat × Nat)) (tol : Nat) :
    runsMatch [] b tol = false := by
  simp [runsMatch]

lemma scanStep_matched {tol minRows pageNum : Nat} {scaleX scaleY : ℚ}
    {acc : ScanState × List RedactionBox} {y : Nat} {runs : List (Nat × Nat)}
    (h : runsMatch runs acc.1.prevRuns tol = true) :
    scanStep tol minRows pageNum scaleX scaleY acc y runs = acc := by
  simp [scanStep, h]

lemma scanStep_mismatched {tol minRows pageNum : Nat} {scaleX scaleY : ℚ}
    {acc : ScanState × List RedactionBox} {y : Nat} {runs : List (Nat × Nat)}
    (h : runsMatch runs acc.1.prevRuns tol = false) :
    scanStep tol minRows pageNum scaleX scaleY acc y runs =
      (⟨runs, y⟩, acc.2 ++ closeBoxes minRows pageNum scaleX scaleY acc.1 y) := by
  simp [scanStep, h]

lemma scanStep_snd_append (tol minRows pageNum : Nat) (scaleX scaleY : ℚ)
    (acc : ScanState × List RedactionBox) (y : Nat) (runs : List (Nat × Nat)) :
    ∃ t, (scanStep tol minRows pageNum scaleX scaleY acc y runs).2 = acc.2 ++ t := by
  unfold scanStep
  by_cases h : runsMatch runs acc.1.prevRuns tol
  · exact ⟨[], by simp [h]⟩
  · exact ⟨closeBoxes minRows pageNum scaleX scaleY acc.1 y, by simp [h]⟩

lemma foldl_scanFoldF_snd_append (tol minRows pageNum : Nat) (scaleX scaleY : ℚ)
    (threshold minRunPx : Nat) (l : List (Nat × List Nat)) :
    ∀ acc : ScanState × List RedactionBox,
      ∃ t, (l.foldl (scanFoldF tol minRows pageNum scaleX scaleY threshold minRunPx) acc).2 =
        acc.2 ++ t := by
  induction l with
  | nil => exact fun acc => ⟨[], by simp⟩
  | cons hd tl ih =>
      intro acc
      obtain ⟨t1, ht1⟩ :=
        ih (scanFoldF tol minRows pageNum scaleX scaleY threshold minRunPx acc hd)
      obtain ⟨t0, ht0⟩ := scanStep_snd_append tol minRows pageNum scaleX scaleY acc hd.1
        (getDarkRuns hd.2 threshold minRunPx)
      refine ⟨t0 ++ t1, ?_⟩
      rw [List.foldl_cons, ht1]
      show (scanFoldF tol minRows pageNum scaleX scaleY threshold minRunPx acc hd).2 ++ t1 = _
      rw [scanFoldF, ht0, List.append_assoc]

lemma foldl_scanFoldF_matching {tol minRows pageNum : Nat} {scaleX scaleY : ℚ}
    {threshold minRunPx : Nat} {row : List Nat} {R : List (Nat × Nat)}
    (hR : getDarkRuns row threshold minRunPx = R) (hm : runsMatch R R tol = true) :
    ∀ (k n y0 : Nat) (boxes : List RedactionBox),
      (List.enumFrom n (List.replicate k row)).foldl
        (scanFoldF tol minRows pageNum scaleX scaleY threshold minRunPx)
        (⟨R, y0⟩, boxes) = (⟨R, y0⟩, boxes) := by
  intro k
  induction k with
  | zero => intro n y0 boxes; rfl
  | succ k ih =>
      intro n y0 boxes
      rw [List.replicate_succ, List.enumFrom_cons, List.foldl_cons]
      have hstep : scanFoldF tol minRows pageNum scaleX scaleY threshold minRunPx
          (⟨R, y0⟩, boxes) (n, row) = (⟨R, y0⟩, boxes) := by
        rw [scanFoldF, hR]
        exact scanStep_matched hm
      rw [hstep, ih]

lemma scanRows_replicate {tol minRows pageNum : Nat} {scaleX scaleY : ℚ}
    {threshold minRunPx : Nat} {row : List Nat} {R : List (Nat × Nat)} {k : Nat}
    (hk : 0 < k) (hR : getDarkRuns row threshold minRunPx = R) (hne : R ≠ []) :
    scanRows tol minRows threshold minRunPx pageNum scaleX scaleY
      (List.replicate k row) = (⟨R, 0⟩, []) := by
  obtain ⟨j, rfl⟩ : ∃ j, k = j + 1 := ⟨k - 1, by omega⟩
  rw [scanRows, List.enum_eq_enumFrom, List.replicate_succ, List.enumFrom_cons,
    List.foldl_cons]
  have hstep : scanFoldF tol minRows pageNum scaleX scaleY threshold minRunPx
      (⟨[], 0⟩, []) (0, row) = (⟨R, 0⟩, []) := by
    rw [scanFoldF, hR, scanStep_mismatched (by simpa using runsMatch_right_nil hne tol)]
    simp [closeBoxes]
  rw [hstep, foldl_scanFoldF_matching hR (runsMatch_self hne tol)]

lemma closeBoxes_of_ne_nil {minRows pageNum : Nat} {scaleX scaleY : ℚ}
    {R : List (Nat × Nat)} (hne : R ≠ []) (startY y : Nat) :
    closeBoxes minRows pageNum scaleX scaleY ⟨R, startY⟩ y =
      if minRows ≤ y - startY then R.map (boxOfRun pageNum scaleX scaleY startY y)
      else [] := by
  by_cases h : minRows ≤ y - startY <;> simp [closeBoxes, hne, h]

lemma scanPage_replicate {tol minRows threshold minRunPx pageNum : Nat}
    {scaleX scaleY : ℚ} {row : List Nat} {R : List (Nat × Nat)} {k : Nat}
    (hk : 0 < k) (hR : getDarkRuns row threshold minRunPx = R) (hne : R ≠ []) :
    scanPage tol minRows threshold minRunPx pageNum scaleX scaleY
      (List.replicate k row) =
      if minRows ≤ k then R.map (boxOfRun pageNum scaleX scaleY 0 k) else [] := by
  unfold scanPage
  rw [scanRows_replicate hk hR hne, List.length_replicate, List.nil_append,
    closeBoxes_of_ne_nil hne]
  simp

lemma scanPage_replicate_append {tol minRows threshold minRunPx pageNum : Nat}
    {scaleX scaleY : ℚ} {row row' : List Nat} {rest : List (List Nat)}
    {R R' : List (Nat × Nat)} {k : Nat}
    (hk : 0 < k) (hR : getDarkRuns row threshold minRunPx = R) (hne : R ≠ [])
    (hR' : getDarkRuns row' threshold minRunPx = R')
    (hmm : runsMatch R' R tol = false) :
    ∃ tail, scanPage tol minRows threshold minRunPx pageNum scaleX scaleY
      (List.replicate k row ++ row' :: rest) =
      (if minRows ≤ k then R.map (boxOfRun pageNum scaleX scaleY 0 k) else []) ++ tail := by
  have hblock : (List.enumFrom 0 (List.replicate k row)).foldl
      (scanFoldF tol minRows pageNum scaleX scaleY threshold minRunPx)
      (⟨[], 0⟩, []) = (⟨R, 0⟩, []) := by
    have h := @scanRows_replicate tol minRows pageNum scaleX scaleY threshold
      minRunPx row R k hk hR hne
    rwa [scanRows, List.enum_eq_enumFrom] at h
  have hstep : scanFoldF tol minRows pageNum scaleX scaleY threshold minRunPx
      (⟨R, 0⟩, []) (k, row') =
      (⟨R', k⟩, if minRows ≤ k then R.map (boxOfRun pageNum scaleX scaleY 0 k) else []) := by
    rw [scanFoldF, hR', scanStep_mismatched (by simpa using hmm)]
    simp [closeBoxes_of_ne_nil hne]
  obtain ⟨t, ht⟩ := foldl_scanFoldF_snd_append tol minRows pageNum scaleX scaleY
    threshold minRunPx (List.enumFrom (k + 1) rest)
    (⟨R', k⟩, if minRows ≤ k then R.map (boxOfRun pageNum scaleX scaleY 0 k) else [])
  unfold scanPage scanRows
  rw [List.enum_eq_enumFrom, List.enumFrom_append, List.foldl_append, hblock,
    List.length_replicate, Nat.zero_add, List.enumFrom_cons, List.foldl_cons, hstep]
  rw [ht]
  exact ⟨_, by rw [List.append_assoc]⟩

lemma getDarkRuns_rowD0 : getDarkRuns rowD0 80 3 = [(0, 4)] := by decide

lemma getDarkRuns_rowD2 : getDarkRuns rowD2 80 3 = [(2, 6)] := by decide

lemma getDarkRuns_rowD4 : getDarkRuns rowD4 80 3 = [(4, 8)] := by decide

lemma getDarkRuns_rowBlank : getDarkRuns rowBlank 80 3 = [] := by decide

lemma scanRows_driftRows (sx sy : ℚ) :
    scanRows 3 5 80 3 0 sx sy driftRows = (⟨[(4, 8)], 2⟩, []) := by
  simp only [scanRows, driftRows, List.enum_eq_enumFrom, List.enumFrom_cons,
    List.enumFrom_nil, List.foldl_cons, List.foldl_nil, scanFoldF,
    getDarkRuns_rowD0, getDarkRuns_rowD2, getDarkRuns_rowD4]
  simp +decide [scanStep, runsMatch, closeBoxes, absDiff]

lemma scanRows_shortRecurRows (sx sy : ℚ) :
    scanRows 3 5 80 3 0 sx sy shortRecurRows = (⟨[], 11⟩, []) := by
  simp only [scanRows, shortRecurRows, List.enum_eq_enumFrom, List.enumFrom_cons,
    List.enumFrom_nil, List.foldl_cons, List.foldl_nil, scanFoldF,
    getDarkRuns_rowD0, getDarkRuns_rowBlank]
  simp +decide [scanStep, runsMatch, closeBoxes, absDiff]

lemma scanPage_driftRows (sx sy : ℚ) :
    scanPage 3 5 80 3 0 sx sy driftRows =
      [⟨0, (4 * sx, 2 * sy, 8 * sx, 8 * sy)⟩] := by
  unfold scanPage
  rw [scanRows_driftRows, show driftRows.length = 8 from rfl,
    closeBoxes_of_ne_nil (by simp) 2 8]
  norm_num [boxOfRun]

lemma scanPage_shortRecurRows (sx sy : ℚ) :
    scanPage 3 5 80 3 0 sx sy shortRecurRows = [] := by
  unfold scanPage
  rw [scanRows_shortRecurRows]
  simp [closeBoxes]

lemma findImage_driftPage :
    findImageRedactions 80 5 15 [driftPage] = [⟨0, (20, 2, 40, 8)⟩] := by
  have hpx : (pyInt ((15 : ℚ) / ((40 : ℚ) / ((8 : ℕ) : ℚ)))).toNat = 3 := by
    have h1 : pyInt ((15 : ℚ) / ((40 : ℚ) / ((8 : ℕ) : ℚ))) = 3 := by
      norm_num [pyInt]
    rw [h1]
    decide
  unfold findImageRedactions
  simp only [List.enum_eq_enumFrom, List.enumFrom_cons, List.enumFrom_nil,
    List.flatMap_cons, List.flatMap_nil, List.append_nil, driftPage,
    runTolerance, minRowsConst, hpx]
  rw [show driftRows.length = 8 from rfl, scanPage_driftRows]
  norm_num [RedactionBox.height, List.filter]

lemma findImage_shortRecurPage :
    findImageRedactions 80 5 15 [shortRecurPage] = [] := by
  have hpx : (pyInt ((15 : ℚ) / ((40 : ℚ) / ((8 : ℕ) : ℚ)))).toNat = 3 := by
    have h1 : pyInt ((15 : ℚ) / ((40 : ℚ) / ((8 : ℕ) : ℚ))) = 3 := by
      norm_num [pyInt]
    rw [h1]
    decide
  unfold findImageRedactions
  simp only [List.enum_eq_enumFrom, List.enumFrom_cons, List.enumFrom_nil,
    List.flatMap_cons, List.flatMap_nil, List.append_nil, shortRecurPage,
    runTolerance, minRowsConst, hpx]
  rw [scanPage_shortRecurRows]
  rfl

/-- C1: when a row's dark-run set fails to match the open region's run set, or
the page ends, the scanline pass emits one `RedactionBox` per run of the
finalized run set exactly when the region spanned at least the minimum number
of rows; each emitted box spans `[region start row, closing row)` vertically
and the run's `[start, end)` horizontally, both converted to document points;
and a region lasting fewer rows than the minimum emits no box even when the
same run pattern recurs later (`shortRecurPage`). -/
theorem C1_scanline_finalization :
    (∀ (tol minRows thr minPx pn : Nat) (sx sy : ℚ) (row : List Nat) (k : Nat),
      0 < k → getDarkRuns row thr minPx ≠ [] →
      scanPage tol minRows thr minPx pn sx sy (List.replicate k row) =
        if minRows ≤ k then
          (getDarkRuns row thr minPx).map (boxOfRun pn sx sy 0 k)
        else []) ∧
    (∀ (tol minRows thr minPx pn : Nat) (sx sy : ℚ) (row row' : List Nat)
      (rest : List (List Nat)) (k : Nat),
      0 < k → getDarkRuns row thr minPx ≠ [] →
      runsMatch (getDarkRuns row' thr minPx) (getDarkRuns row thr minPx) tol = false →
      ∃ tail, scanPage tol minRows thr minPx pn sx sy
          (List.replicate k row ++ row' :: rest) =
        (if minRows ≤ k then
          (getDarkRuns row thr minPx).map (boxOfRun pn sx sy 0 k)
         else []) ++ tail) ∧
    findImageRedactions 80 5 15 [shortRecurPage] = [] := by
  refine ⟨?_, ?_, findImage_shortRecurPage⟩
  · intro tol minRows thr minPx pn sx sy row k hk hne
    exact scanPage_replicate hk rfl hne
  · intro tol minRows thr minPx pn sx sy row row' rest k hk hne hmm
    exact scanPage_replicate_append hk rfl hne rfl hmm

/-- Witness for C1 at a concrete raster: one 1-pixel dark row with
`min_rows = 1` emits exactly its single run as a box spanning `[0, 1)`. -/
theorem C1_scanline_finalization_witness :
    scanPage 0 1 1 1 0 1 1 (List.replicate 1 [0]) =
      if 1 ≤ 1 then (getDarkRuns [0] 1 1).map (boxOfRun 0 1 1 0 1) else [] :=
  C1_scanline_finalization.1 0 1 1 1 0 1 1 [0] 1 (by decide) (by decide)

/-- C9: while a region is open, the scanner compares each new row's run set
against the run set of the row at which the region started: a matching row
leaves `prev_runs` and `rect_start_y` untouched, so a run pattern drifting
2 px per row (within the 3 px row-to-row tolerance) is closed at the row
whose cumulative drift from the anchor row exceeds the tolerance, as the
`driftPage` raster shows (the emitted box starts at row 2, not row 0). -/
theorem C9_anchor_comparison :
    (∀ (tol minRows pn : Nat) (sx sy : ℚ) (st : ScanState)
      (boxes : List RedactionBox) (y : Nat) (runs : List (Nat × Nat)),
      runsMatch runs st.prevRuns tol = true →
      scanStep tol minRows pn sx sy (st, boxes) y runs = (st, boxes)) ∧
    findImageRedactions 80 5 15 [driftPage] = [⟨0, (20, 2, 40, 8)⟩] := by
  refine ⟨?_, findImage_driftPage⟩
  intro tol minRows pn sx sy st boxes y runs h
  exact scanStep_matched h

/-- Witness for C9: a concrete matching row leaves the concrete scan state
unchanged. -/
theorem C9_anchor_comparison_witness :
    scanStep 0 5 0 1 1 (⟨[(0, 1)], 0⟩, []) 3 [(0, 1)] = (⟨[(0, 1)], 0⟩, []) :=
  C9_anchor_comparison.1 0 5 0 1 1 ⟨[(0, 1)], 0⟩ [] 3 [(0, 1)] (by decide)

lemma boxLE_total (a b : RedactionBox) : boxLE a b = true ∨ boxLE b a = true := by
  simp only [boxLE, Bool.or_eq_true, Bool.and_eq_true, decide_eq_true_eq, beq_iff_eq]
  rcases lt_trichotomy a.page b.page with h | h | h
  · exact Or.inl (Or.inl h)
  · rcases lt_trichotomy a.y0 b.y0 with h2 | h2 | h2
    · exact Or.inl (Or.inr ⟨h, Or.inl h2⟩)
    · rcases le_total a.x0 b.x0 with h3 | h3
      · exact Or.inl (Or.inr ⟨h, Or.inr ⟨h2, h3⟩⟩)
      · exact Or.inr (Or.inr ⟨h.symm, Or.inr ⟨h2.symm, h3⟩⟩)
    · exact Or.inr (Or.inr ⟨h.symm, Or.inl h2⟩)
  · exact Or.inr (Or.inl h)

lemma boxLE_trans (a b c : RedactionBox) (hab : boxLE a b = true)
    (hbc : boxLE b c = true) : boxLE a c = true := by
  simp only [boxLE, Bool.or_eq_true, Bool.and_eq_true, decide_eq_true_eq,
    beq_iff_eq] at hab hbc ⊢
  rcases hab with h1 | ⟨e1, h1⟩
  · rcases hbc with h2 | ⟨e2, h2⟩
    · exact Or.inl (h1.trans h2)
    · exact Or.inl (e2 ▸ h1)
  · rcases hbc with h2 | ⟨e2, h2⟩
    · exact Or.inl (e1 ▸ h2)
    · refine Or.inr ⟨e1.trans e2, ?_⟩
      rcases h1 with h1 | ⟨f1, h1⟩
      · rcases h2 with h2 | ⟨f2, h2⟩
        · exact Or.inl (h1.trans h2)
        · exact Or.inl (f2 ▸ h1)
      · rcases h2 with h2 | ⟨f2, h2⟩
        · exact Or.inl (f1 ▸ h2)
        · exact Or.inr ⟨f1.trans f2, h1.trans h2⟩

lemma find_redactions_pairwise (doc : List Page) :
    List.Pairwise (fun a b => boxLE a b = true) (find_redactions doc) := by
  unfold find_redactions
  exact List.sorted_mergeSort boxLE_trans
    (fun a b => by rcases boxLE_total a b with h | h <;> simp [h]) _

/-- C5: the fused list returned by `find_redactions` is sorted ascending by
the lexicographic key `(page, y0, x0)`: consecutive boxes are related by
page-then-top-edge-then-left-edge order. -/
theorem C5_fused_list_sorted (doc : List Page) :
    List.Chain' (fun a b =>
      a.page < b.page ∨ (a.page = b.page ∧
        (a.y0 < b.y0 ∨ (a.y0 = b.y0 ∧ a.x0 ≤ b.x0)))) (find_redactions doc) := by
  refine ((find_redactions_pairwise doc).imp ?_).chain'
  intro a b h
  simpa only [boxLE, Bool.or_eq_true, Bool.and_eq_true, decide_eq_true_eq,
    beq_iff_eq] using h

lemma darkRunsGo_run_lt {threshold minWidth rowWidth : Nat} :
    ∀ (ps : List Nat) (x : Nat) (inRun : Bool) (start : Nat),
      (inRun = true → start < x) → rowWidth = x + ps.length →
      ∀ r ∈ darkRunsGo threshold minWidth rowWidth x ps inRun start, r.1 < r.2 := by
  intro ps
  induction ps with
  | nil =>
      intro x inRun start hinv hw r hr
      unfold darkRunsGo at hr
      split at hr
      · rename_i hcond
        rcases List.mem_singleton.mp hr with rfl
        have hin : inRun = true := by cases inRun <;> simp_all
        have : start < x := hinv hin
        simp only [List.length_nil, Nat.add_zero] at hw
        omega
      · exact absurd hr (List.not_mem_nil r)
  | cons p ps ih =>
      intro x inRun start hinv hw r hr
      unfold darkRunsGo at hr
      by_cases hp : p < threshold
      · rw [if_pos hp] at hr
        refine ih (x + 1) true (if inRun then start else x) ?_ ?_ r hr
        · intro _
          by_cases hin : inRun
          · have := hinv (by simpa using hin)
            simp [hin]
            omega
          · simp [hin]
        · simp only [List.length_cons] at hw
          omega
      · rw [if_neg hp] at hr
        by_cases hc : (inRun && decide (minWidth ≤ x - start)) = true
        · rw [if_pos hc] at hr
          rcases List.mem_cons.mp hr with rfl | hr2
          · exact hinv (by cases inRun <;> simp_all)
          · refine ih (x + 1) false start (by simp) ?_ r hr2
            simp only [List.length_cons] at hw
            omega
        · rw [if_neg hc] at hr
          refine ih (x + 1) false start (by simp) ?_ r hr
          simp only [List.length_cons] at hw
          omega

lemma getDarkRuns_run_lt (row : List Nat) (threshold minWidth : Nat) :
    ∀ r ∈ getDarkRuns row threshold minWidth, r.1 < r.2 :=
  darkRunsGo_run_lt row 0 false 0 (by simp) (by simp)

lemma closeBoxes_runShape {minRows pageNum : Nat} {scaleX scaleY : ℚ}
    {st : ScanState} {y : Nat} (hst : ∀ r ∈ st.prevRuns, r.1 < r.2) :
    ∀ b ∈ closeBoxes minRows pageNum scaleX scaleY st y, runShape scaleX b := by
  intro b hb
  unfold closeBoxes at hb
  split at hb
  · rcases List.mem_map.mp hb with ⟨run, hrun, rfl⟩
    exact ⟨run.1, run.2, hst run hrun, rfl, rfl⟩
  · exact absurd hb (List.not_mem_nil b)

lemma foldl_scanFoldF_runShape {tol minRows pageNum : Nat} {scaleX scaleY : ℚ}
    {threshold minRunPx : Nat} :
    ∀ (l : List (Nat × List Nat)) (acc : ScanState × List RedactionBox),
      (∀ r ∈ acc.1.prevRuns, r.1 < r.2) → (∀ b ∈ acc.2, runShape scaleX b) →
      (∀ r ∈ (l.foldl (scanFoldF tol minRows pageNum scaleX scaleY threshold minRunPx)
          acc).1.prevRuns, r.1 < r.2) ∧
      (∀ b ∈ (l.foldl (scanFoldF tol minRows pageNum scaleX scaleY threshold minRunPx)
          acc).2, runShape scaleX b) := by
  intro l
  induction l with
  | nil => exact fun acc h1 h2 => ⟨h1, h2⟩
  | cons hd tl ih =>
      intro acc h1 h2
      rw [List.foldl_cons]
      refine ih _ ?_ ?_
      · show ∀ r ∈ (scanStep tol minRows pageNum scaleX scaleY acc hd.1
            (getDarkRuns hd.2 threshold minRunPx)).1.prevRuns, r.1 < r.2
        unfold scanStep
        split
        · exact h1
        · exact getDarkRuns_run_lt hd.2 threshold minRunPx
      · show ∀ b ∈ (scanStep tol minRows pageNum scaleX scaleY acc hd.1
            (getDarkRuns hd.2 threshold minRunPx)).2, runShape scaleX b
        unfold scanStep
        split
        · exact h2
        · intro b hb
          rcases List.mem_append.mp hb with hb | hb
          · exact h2 b hb
          · exact closeBoxes_runShape h1 b hb

lemma scanPage_runShape {tol minRows threshold minRunPx pageNum : Nat}
    {scaleX scaleY : ℚ} {rows : List (List Nat)} :
    ∀ b ∈ scanPage tol minRows threshold minRunPx pageNum scaleX scaleY rows,
      runShape scaleX b := by
  intro b hb
  unfold scanPage at hb
  obtain ⟨h1, h2⟩ := @foldl_scanFoldF_runShape tol minRows pageNum scaleX scaleY
    threshold minRunPx (rows.enum) (⟨[], 0⟩, []) (by simp) (by simp)
  rcases List.mem_append.mp hb with hb | hb
  · exact h2 b hb
  · exact closeBoxes_runShape h1 b hb

lemma findImageRedactions_pos {darkThreshold : Nat} {minHeightPt minWidthPt : ℚ}
    {doc : List Page} (hmh : 0 < minHeightPt)
    (hscale : ∀ pg ∈ doc, 0 < pg.widthPt / (pg.pixW : ℚ)) :
    ∀ b ∈ findImageRedactions darkThreshold minHeightPt minWidthPt doc,
      0 < b.width ∧ 0 < b.height := by
  intro b hb
  unfold findImageRedactions at hb
  rw [List.mem_filter] at hb
  obtain ⟨hmem, hfil⟩ := hb
  have hh : 0 < b.height := lt_of_lt_of_le hmh (by simpa using hfil)
  refine ⟨?_, hh⟩
  rcases List.mem_flatMap.mp hmem with ⟨⟨pn, pg⟩, hpg, hbpg⟩
  have hpgmem : pg ∈ doc := by
    rw [List.enum_eq_enumFrom] at hpg
    obtain ⟨-, hlt, hget⟩ := List.mem_enumFrom hpg
    rw [hget]
    exact List.getElem_mem _
  obtain ⟨s, e, hse, hx0, hx1⟩ := scanPage_runShape b hbpg
  rw [RedactionBox.width, hx1, hx0, ← sub_mul]
  have : (0 : ℚ) < (e : ℚ) - (s : ℚ) := by
    have := (Nat.cast_lt (α := ℚ)).mpr hse
    linarith
  exact mul_pos this (hscale pg hpgmem)

lemma findVectorRedactions_pos {doc : List Page} :
    ∀ b ∈ findVectorRedactions doc, 0 < b.width ∧ 0 < b.height := by
  intro b hb
  unfold findVectorRedactions at hb
  rcases List.mem_flatMap.mp hb with ⟨⟨pn, pg⟩, hpg, hbpg⟩
  rcases List.mem_filterMap.mp hbpg with ⟨d, hd, hsome⟩
  split at hsome
  · exact absurd hsome (by simp)
  · split at hsome
    · rename_i cs hcs hcond
      obtain rfl : ({ page := (pn, pg).1, bbox := d.rect } : RedactionBox) = b := by
        injection hsome
      simp only [Bool.and_eq_true, decide_eq_true_eq] at hcond
      refine ⟨?_, ?_⟩
      · show (0 : ℚ) < rectW d.rect
        linarith [hcond.1.2]
      · show (0 : ℚ) < rectH d.rect
        linarith [hcond.2]
    · exact absurd hsome (by simp)

/-- C2 fails as stated: on a document whose only redaction is an annotation
with a degenerate zero-area rectangle, `find_redactions` returns a box of
width and height 0, because annotation rectangles are taken verbatim. -/
theorem C2_positive_dimensions_counterexample :
    ¬ ∀ b ∈ find_redactions annotCexDoc, 0 < b.width ∧ 0 < b.height := by
  intro h
  have hmem : (⟨0, (0, 0, 0, 0)⟩ : RedactionBox) ∈ find_redactions annotCexDoc := by
    simp [find_redactions, findAnnotationRedactions, findVectorRedactions,
      findImageRedactions, annotCexDoc, scanPage, scanRows, closeBoxes,
      List.mergeSort_singleton]
  have hw := (h _ hmem).1
  rw [RedactionBox.width] at hw
  norm_num at hw

/-- C2 amended: every box returned by `find_redactions` either is
annotation-sourced (its rectangle copied verbatim, so possibly degenerate)
or has strictly positive width and height; the positivity holds for all
vector-sourced and raster-sourced boxes, given positive horizontal page
scale. -/
theorem C2_positive_dimensions_amended (doc : List Page)
    (hscale : ∀ pg ∈ doc, 0 < pg.widthPt / (pg.pixW : ℚ)) :
    ∀ b ∈ find_redactions doc,
      b ∈ findAnnotationRedactions doc ∨ (0 < b.width ∧ 0 < b.height) := by
  intro b hb
  have hperm := List.mergeSort_perm
    (findAnnotationRedactions doc ++ findVectorRedactions doc ++
      findImageRedactions 80 5 15 doc) boxLE
  rw [find_redactions] at hb
  have hb2 := hperm.mem_iff.mp hb
  rcases List.mem_append.mp hb2 with hb3 | hb3
  · rcases List.mem_append.mp hb3 with hb4 | hb4
    · exact Or.inl hb4
    · exact Or.inr (findVectorRedactions_pos b hb4)
  · exact Or.inr (findImageRedactions_pos (by norm_num) hscale b hb3)

lemma matchFontGo_eq_none_iff (lower : String) :
    ∀ l : List (String × FontT), matchFontGo lower l = none ↔
      ∀ p ∈ l, strContains lower p.1 = false := by
  intro l
  induction l with
  | nil => simp [matchFontGo]
  | cons hd tl ih =>
      obtain ⟨s, g⟩ := hd
      cases h : strContains lower s
      · simp only [matchFontGo, h, Bool.false_eq_true, if_false, ih]
        constructor
        · rintro hall p hp
          rcases List.mem_cons.mp hp with rfl | hp2
          · exact h
          · exact hall p hp2
        · intro hall p hp
          exact hall p (List.mem_cons_of_mem _ hp)
      · simp only [matchFontGo, h, if_true]
        constructor
        · intro hsome
          exact absurd hsome (by simp)
        · intro hall
          have := hall (s, g) (by simp)
          rw [h] at this
          exact absurd this (by simp)

lemma matchFontGo_eq_some_iff (lower : String) (f : FontT) :
    ∀ l : List (String × FontT), matchFontGo lower l = some f ↔
      ∃ pre sub post, l = pre ++ (sub, f) :: post ∧
        strContains lower sub = true ∧
        ∀ p ∈ pre, strContains lower p.1 = false := by
  intro l
  induction l with
  | nil =>
      simp only [matchFontGo]
      constructor
      · intro hsome
        exact absurd hsome (by simp)
      · rintro ⟨pre, sub, post, heq, -, -⟩
        exact absurd heq.symm (List.append_ne_nil_of_right_ne_nil pre (by simp))
  | cons hd tl ih =>
      obtain ⟨s, g⟩ := hd
      cases h : strContains lower s
      · simp only [matchFontGo, h, Bool.false_eq_true, if_false]
        constructor
        · intro hsome
          obtain ⟨pre, sub, post, heq, hc, hpre⟩ := ih.mp hsome
          refine ⟨(s, g) :: pre, sub, post, by rw [heq, List.cons_append], hc, ?_⟩
          intro p hp
          rcases List.mem_cons.mp hp with rfl | hp2
          · exact h
          · exact hpre p hp2
        · rintro ⟨pre, sub, post, heq, hc, hpre⟩
          cases pre with
          | nil =>
              obtain ⟨heq1, -⟩ := List.cons_eq_cons.mp heq
              obtain ⟨rfl, -⟩ := Prod.mk.injEq .. ▸ heq1
              exact absurd hc (by simp [h])
          | cons q qre =>
              obtain ⟨rfl, heq2⟩ := List.cons_eq_cons.mp heq
              exact ih.mpr ⟨qre, sub, post, heq2, hc,
                fun p hp => hpre p (List.mem_cons_of_mem _ hp)⟩
      · simp only [matchFontGo, h, if_true]
        constructor
        · intro hsome
          obtain rfl : g = f := by simpa using hsome
          exact ⟨[], s, tl, rfl, h, by simp⟩
        · rintro ⟨pre, sub, post, heq, hc, hpre⟩
          cases pre with
          | nil =>
              obtain ⟨heq1, -⟩ := List.cons_eq_cons.mp heq
              obtain ⟨-, rfl⟩ := Prod.mk.injEq .. ▸ heq1
              rfl
          | cons q qre =>
              obtain ⟨rfl, -⟩ := List.cons_eq_cons.mp heq
              have := hpre (s, g) (by simp)
              rw [h] at this
              exact absurd this (by simp)

/-- C4: the font resolver lowercases the raw name and returns the family of
the first rule, in the fixed rule-list order, whose substring is contained
in the lowercased name; with no matching rule it returns `none`; a name
containing a more specific known substring resolves to that substring's
family even when a broader known substring also occurs later in the list
("Liberation Sans Courier" resolves to arial, not courier new). -/
theorem C4_font_resolver_first_match :
    (∀ name : String, match_font name = none ↔
      ∀ p ∈ FONT_NAME_MAP, strContains (lowerString name) p.1 = false) ∧
    (∀ (name : String) (f : FontT), match_font name = some f ↔
      ∃ pre sub post, FONT_NAME_MAP = pre ++ (sub, f) :: post ∧
        strContains (lowerString name) sub = true ∧
        ∀ p ∈ pre, strContains (lowerString name) p.1 = false) ∧
    match_font "Liberation Sans Courier" = some FontT.arial ∧
    strContains (lowerString "Liberation Sans Courier") "courier" = true ∧
    match_font "Wingdings" = none := by
  refine ⟨fun name => matchFontGo_eq_none_iff _ _,
    fun name f => matchFontGo_eq_some_iff _ _ _, by decide, by decide, by decide⟩

/-- C10: every `TextSpan` stores its raw run's text verbatim (trimming is
used only for the skip test), and the stored text is never empty after
trimming because trim-empty runs are skipped. -/
theorem C10_span_text_verbatim (doc : List PageText) :
    ∀ ts ∈ extract_font_info doc, ¬ pyStrip ts.text = "" ∧
      ∃ page ∈ doc, ∃ b ∈ page.blocks, ∃ ln ∈ b.lines, ∃ rs ∈ ln.spans,
        rs.text = ts.text := by
  intro ts hts
  unfold extract_font_info at hts
  rcases List.mem_flatMap.mp hts with ⟨⟨pn, page⟩, hpage, h2⟩
  rcases List.mem_flatMap.mp h2 with ⟨b, hb, h3⟩
  rcases List.mem_flatMap.mp h3 with ⟨ln, hln, h4⟩
  rcases List.mem_map.mp h4 with ⟨rs, hrs, rfl⟩
  rw [List.mem_filter] at hrs
  have hpagemem : page ∈ doc := by
    rw [List.enum_eq_enumFrom] at hpage
    obtain ⟨-, hlt, hget⟩ := List.mem_enumFrom hpage
    rw [hget]
    exact List.getElem_mem _
  refine ⟨by simpa using hrs.2, page, hpagemem, b, (List.mem_filter.mp hb).1,
    ln, hln, rs, hrs.1, rfl⟩

/-- Witness for C10 at a concrete one-span document whose span text
carries leading and trailing whitespace. -/
theorem C10_span_text_verbatim_witness :
    ¬ pyStrip textSpanWit.text = "" ∧
      ∃ page ∈ spanWitDoc, ∃ b ∈ page.blocks, ∃ ln ∈ b.lines, ∃ rs ∈ ln.spans,
        rs.text = textSpanWit.text :=
  C10_span_text_verbatim spanWitDoc textSpanWit
    (by simp +decide [extract_font_info, spanWitDoc, textSpanWit, rawSpanWit])

/-- Witness for the amended C2 on a concrete document with one well-formed
redaction annotation. -/
theorem C2_positive_dimensions_amended_witness :
    (⟨0, (1, 2, 3, 4)⟩ : RedactionBox) ∈ findAnnotationRedactions annotWitDoc ∨
      (0 < (⟨0, (1, 2, 3, 4)⟩ : RedactionBox).width ∧
        0 < (⟨0, (1, 2, 3, 4)⟩ : RedactionBox).height) :=
  C2_positive_dimensions_amended annotWitDoc
    (by intro pg hpg; rcases List.mem_singleton.mp hpg with rfl; norm_num [annotWitDoc])
    ⟨0, (1, 2, 3, 4)⟩
    (by simp [find_redactions, findAnnotationRedactions, findVectorRedactions,
      findImageRedactions, annotWitDoc, scanPage, scanRows, closeBoxes,
      List.mergeSort_singleton])

lemma findFirstFile_eq_none {fsys : FileSystem} {bases : List String} :
    ∀ fns : List String, (∀ fn ∈ fns, findInPaths fsys bases fn = none) →
      findFirstFile fsys bases fns = none := by
  intro fns
  induction fns with
  | nil => intro _; rfl
  | cons fn rest ih =>
      intro h
      unfold findFirstFile
      rw [h fn (by simp), ih fun g hg => h g (List.mem_cons_of_mem _ hg)]

lemma get_font_path_error {fsys : FileSystem} {os : OSKind} {home : String}
    {font : FontT}
    (h : ∀ fn ∈ FONT_FILES font, findInPaths fsys (searchPaths home os) fn = none) :
    get_font_path fsys os home font =
      Except.error (fontNotFoundMsg (FONT_FILES font)) := by
  unfold get_font_path
  rw [findFirstFile_eq_none (FONT_FILES font) h]

lemma initFaces_error_of_mem {fsys : FileSystem} {os : OSKind} {home : String}
    {loader : String → Face} {font : FontT} {e : String}
    (hf : get_font_path fsys os home font = Except.error e) :
    ∀ (l : List FontT) (acc : List (FontT × Face)), font ∈ l →
      ∃ msg, initFaces fsys os home loader l acc = Except.error msg := by
  intro l
  induction l with
  | nil => intro acc h; exact absurd h (List.not_mem_nil font)
  | cons g rest ih =>
      intro acc hmem
      unfold initFaces
      cases hg : get_font_path fsys os home g with
      | error e2 => exact ⟨e2, rfl⟩
      | ok p =>
          rcases List.mem_cons.mp hmem with rfl | h2
          · rw [hg] at hf
            exact absurd hf (by simp)
          · exact ih (acc ++ [(g, loader p)]) h2

lemma fontNotFoundMsg_mentions_filenames (font : FontT) :
    ∀ fn ∈ FONT_FILES font, strContains (fontNotFoundMsg (FONT_FILES font)) fn = true := by
  cases font <;> decide

lemma fontNotFoundMsg_mentions_family (font : FontT) :
    strContains (lowerString (fontNotFoundMsg (FONT_FILES font))) (fontName font) = true := by
  cases font <;> decide

/-- C3: when no candidate file for a requested family exists in any searched
directory, `_get_font_path` fails with the resource-not-found error whose
message names every filename tried and (case-insensitively) the family; the
error propagates through `FontCache` construction unchanged on the first
failing family, and no cache value is produced. -/
theorem C3_missing_font_fatal (fsys : FileSystem) (os : OSKind) (home : String)
    (loader : String → Face) (fonts : Option (List FontT)) (font : FontT)
    (hmem : font ∈ fonts.getD allFonts)
    (habsent : ∀ fn ∈ FONT_FILES font,
      findInPaths fsys (searchPaths home os) fn = none) :
    get_font_path fsys os home font =
      Except.error (fontNotFoundMsg (FONT_FILES font)) ∧
    (∀ fn ∈ FONT_FILES font,
      strContains (fontNotFoundMsg (FONT_FILES font)) fn = true) ∧
    strContains (lowerString (fontNotFoundMsg (FONT_FILES font)))
      (fontName font) = true ∧
    ∃ msg, FontCache.init fsys os home loader fonts = Except.error msg := by
  have hgp := get_font_path_error habsent
  refine ⟨hgp, fontNotFoundMsg_mentions_filenames font,
    fontNotFoundMsg_mentions_family font, ?_⟩
  obtain ⟨msg, hmsg⟩ := initFaces_error_of_mem hgp (fonts.getD allFonts) [] hmem
  exact ⟨msg, by unfold FontCache.init; rw [hmsg]⟩

/-- Witness for C3: on an empty filesystem, building the default cache
fails with the arial resource-not-found error. -/
theorem C3_missing_font_fatal_witness :
    get_font_path emptyFS OSKind.linux "/root" FontT.arial =
      Except.error (fontNotFoundMsg (FONT_FILES FontT.arial)) ∧
    (∀ fn ∈ FONT_FILES FontT.arial,
      strContains (fontNotFoundMsg (FONT_FILES FontT.arial)) fn = true) ∧
    strContains (lowerString (fontNotFoundMsg (FONT_FILES FontT.arial)))
      (fontName FontT.arial) = true ∧
    ∃ msg, FontCache.init emptyFS OSKind.linux "/root" zeroLoader none =
      Except.error msg :=
  C3_missing_font_fatal emptyFS OSKind.linux "/root" zeroLoader none FontT.arial
    (by decide) (by decide)

lemma pyRound_ge_floor (q : ℚ) : ⌊q⌋ ≤ pyRound q := by
  unfold pyRound
  split_ifs <;> omega

lemma pyRound_le_floor_add_one (q : ℚ) : pyRound q ≤ ⌊q⌋ + 1 := by
  unfold pyRound
  split_ifs <;> omega

lemma pyRound_bounds (q : ℚ) :
    q - 1 / 2 ≤ (pyRound q : ℚ) ∧ (pyRound q : ℚ) ≤ q + 1 / 2 := by
  have hfl : (⌊q⌋ : ℚ) ≤ q := Int.floor_le q
  have hfu : q < ⌊q⌋ + 1 := Int.lt_floor_add_one q
  unfold pyRound
  split_ifs with h1 h2 h3 <;> constructor <;> push_cast <;> linarith

lemma pyRound_mono {q r : ℚ} (h : q ≤ r) : pyRound q ≤ pyRound r := by
  by_cases hf : ⌊q⌋ = ⌊r⌋
  · unfold pyRound
    rw [hf]
    split_ifs <;> first | omega | (exfalso; linarith)
  · have hlt : ⌊q⌋ < ⌊r⌋ := lt_of_le_of_ne (Int.floor_le_floor h) hf
    have h1 := pyRound_le_floor_add_one q
    have h2 := pyRound_ge_floor r
    omega

lemma pyRound_zero : pyRound 0 = 0 := by
  norm_num [pyRound]

lemma calculate_width_eq {s : String} {font : FontT} {cache : FontCache}
    {face : Face} {kerning ligatures : Bool} {size : ℤ}
    (hface : cache.find? font = some face) :
    calculate_width s font size cache kerning ligatures =
      some (pyRound ((totalAdvance face kerning ligatures s : ℚ) * (size : ℚ) /
        ((face.upem : ℤ) : ℚ))) := by
  unfold calculate_width
  rw [hface]

/-- C6 fails as stated: with a face whose glyphs all have zero advance (as
real fonts have for zero-width characters), the width of the non-empty
string "a" is 0 at both size 1 and size 2, so increasing the size does not
strictly increase the width. -/
theorem C6_width_strict_mono_counterexample :
    ¬ ∃ w1 w2 : ℤ,
      calculate_width "a" FontT.arial 1 zeroCache true true = some w1 ∧
      calculate_width "a" FontT.arial 2 zeroCache true true = some w2 ∧
      w1 < w2 := by
  rintro ⟨w1, w2, h1, h2, hlt⟩
  have hface : zeroCache.find? FontT.arial = some zeroFace := rfl
  have hta : totalAdvance zeroFace true true "a" = 0 := rfl
  rw [calculate_width_eq hface, hta] at h1 h2
  norm_num [pyRound_zero] at h1 h2
  omega

/-- C6 amended: for a fixed non-empty string, family, feature flags and
cache, `calculate_width` is non-decreasing in `size` (given non-negative
total advance and positive units-per-em), and strictly increasing whenever
the string's total advance is at least one em (`upem ≤ total advance`). -/
theorem C6_width_monotone_in_size_amended (s : String) (font : FontT)
    (cache : FontCache) (face : Face) (kerning ligatures : Bool)
    (size1 size2 : ℤ) (hface : cache.find? font = some face)
    (hupem : 0 < face.upem)
    (hta : 0 ≤ totalAdvance face kerning ligatures s) (hsz : size1 ≤ size2) :
    ∃ w1 w2 : ℤ,
      calculate_width s font size1 cache kerning ligatures = some w1 ∧
      calculate_width s font size2 cache kerning ligatures = some w2 ∧
      w1 ≤ w2 ∧
      (face.upem ≤ totalAdvance face kerning ligatures s → size1 < size2 →
        w1 < w2) := by
  have hu : (0 : ℚ) < ((face.upem : ℤ) : ℚ) := by exact_mod_cast hupem
  have hta' : (0 : ℚ) ≤ ((totalAdvance face kerning ligatures s : ℤ) : ℚ) := by
    exact_mod_cast hta
  set ta : ℚ := ((totalAdvance face kerning ligatures s : ℤ) : ℚ) with hta_def
  set u : ℚ := ((face.upem : ℤ) : ℚ) with hu_def
  have hq : ta * (size1 : ℚ) / u ≤ ta * (size2 : ℚ) / u := by
    have hnum : ta * (size1 : ℚ) ≤ ta * (size2 : ℚ) :=
      mul_le_mul_of_nonneg_left (by exact_mod_cast hsz) hta'
    rw [div_eq_mul_inv, div_eq_mul_inv]
    exact mul_le_mul_of_nonneg_right hnum (inv_nonneg.mpr hu.le)
  refine ⟨pyRound (ta * (size1 : ℚ) / u), pyRound (ta * (size2 : ℚ) / u),
    calculate_width_eq hface, calculate_width_eq hface, pyRound_mono hq, ?_⟩
  intro htau hslt
  by_contra hcon
  set q1 : ℚ := ta * (size1 : ℚ) / u with hq1
  set q2 : ℚ := ta * (size2 : ℚ) / u with hq2
  have heqw : pyRound q1 = pyRound q2 := le_antisymm (pyRound_mono hq) (by omega)
  obtain ⟨hb1l, hb1u⟩ := pyRound_bounds q1
  obtain ⟨hb2l, hb2u⟩ := pyRound_bounds q2
  rw [← heqw] at hb2l hb2u
  have hsub : q2 - q1 ≤ 1 := by linarith
  have hdiff : q2 - q1 = ta / u * ((size2 : ℚ) - (size1 : ℚ)) := by
    rw [hq1, hq2, div_sub_div_same, ← mul_sub, mul_div_right_comm]
  have hone_le_r : 1 ≤ ta / u :=
    (one_le_div hu).mpr (by rw [hta_def, hu_def]; exact_mod_cast htau)
  have hds : (1 : ℚ) ≤ (size2 : ℚ) - (size1 : ℚ) := by
    have : (size1 : ℚ) + 1 ≤ (size2 : ℚ) := by exact_mod_cast hslt
    linarith
  have hge : (size2 : ℚ) - (size1 : ℚ) ≤ q2 - q1 := by
    rw [hdiff]
    calc (size2 : ℚ) - (size1 : ℚ) = 1 * ((size2 : ℚ) - (size1 : ℚ)) := by ring
    _ ≤ ta / u * ((size2 : ℚ) - (size1 : ℚ)) :=
        mul_le_mul_of_nonneg_right hone_le_r (by linarith)
  have hds_eq : (size2 : ℚ) - (size1 : ℚ) = 1 := le_antisymm (by linarith) hds
  have hr_eq : ta / u = 1 := by
    have h1 : q2 - q1 = ta / u := by rw [hdiff, hds_eq, mul_one]
    have : ta / u ≤ 1 := by rw [← h1]; exact hsub
    exact le_antisymm this hone_le_r
  have hta_eq_u : ta = u := by
    field_simp at hr_eq
    exact hr_eq
  have hq1_int : q1 = (size1 : ℚ) := by
    rw [hq1, hta_eq_u, mul_comm, mul_div_assoc, div_self hu.ne', mul_one]
  have hq2_val : q2 = q1 + 1 := by
    have h1 : q2 - q1 = 1 := by rw [hdiff, hds_eq, mul_one, hr_eq]
    linarith
  have hq1_tie : q1 = ((pyRound q1 : ℤ) : ℚ) - 1 / 2 := by
    rw [hq2_val] at hb2u
    linarith
  have hcast : ((2 * size1 : ℤ) : ℚ) = ((2 * pyRound q1 - 1 : ℤ) : ℚ) := by
    push_cast
    have hx : (size1 : ℚ) = ((pyRound q1 : ℤ) : ℚ) - 1 / 2 := by
      rw [← hq1_int]
      exact hq1_tie
    linarith
  have : (2 * size1 : ℤ) = 2 * pyRound q1 - 1 := by exact_mod_cast hcast
  omega

/-- Witness for the amended C6: a one-em-advance face at sizes 1 and 2. -/
theorem C6_width_monotone_in_size_amended_witness :
    ∃ w1 w2 : ℤ,
      calculate_width "a" FontT.arial 1 oneEmCache true true = some w1 ∧
      calculate_width "a" FontT.arial 2 oneEmCache true true = some w2 ∧
      w1 ≤ w2 ∧
      (oneEmFace.upem ≤ totalAdvance oneEmFace true true "a" → (1 : ℤ) < 2 →
        w1 < w2) :=
  C6_width_monotone_in_size_amended "a" FontT.arial oneEmCache oneEmFace true true
    1 2 rfl (by decide) (by decide) (by decide)

/-- C8: the width of the empty string is 0 for every family present in the
cache and every size; and appending a character with non-negative advance
to a string of a repeated glyph never decreases the width, at fixed family,
size and feature flags (given non-negative size and positive units-per-em). -/
theorem C8_width_empty_and_append_monotone :
    (∀ (font : FontT) (size : ℤ) (cache : FontCache) (face : Face)
      (kerning ligatures : Bool), cache.find? font = some face →
      calculate_width "" font size cache kerning ligatures = some 0) ∧
    (∀ (font : FontT) (size : ℤ) (cache : FontCache) (face : Face)
      (kerning ligatures : Bool) (c0 c : Char) (n : Nat),
      cache.find? font = some face → 0 < face.upem → 0 ≤ size →
      0 ≤ face.advance kerning ligatures c →
      ∃ w1 w2 : ℤ,
        calculate_width (String.mk (List.replicate n c0)) font size cache
          kerning ligatures = some w1 ∧
        calculate_width (String.mk (List.replicate n c0 ++ [c])) font size cache
          kerning ligatures = some w2 ∧
        w1 ≤ w2) := by
  constructor
  · intro font size cache face kerning ligatures hface
    rw [calculate_width_eq hface]
    have h0 : totalAdvance face kerning ligatures "" = 0 := rfl
    rw [h0]
    norm_num [pyRound_zero]
  · intro font size cache face kerning ligatures c0 c n hface hupem hsz hadv
    have hu : (0 : ℚ) < ((face.upem : ℤ) : ℚ) := by exact_mod_cast hupem
    have happ : totalAdvance face kerning ligatures
        (String.mk (List.replicate n c0 ++ [c])) =
        totalAdvance face kerning ligatures (String.mk (List.replicate n c0)) +
          face.advance kerning ligatures c := by
      simp [totalAdvance]
    refine ⟨_, _, calculate_width_eq hface, calculate_width_eq hface,
      pyRound_mono ?_⟩
    rw [happ]
    have hnum : (totalAdvance face kerning ligatures
          (String.mk (List.replicate n c0)) : ℚ) * (size : ℚ) ≤
        ((totalAdvance face kerning ligatures (String.mk (List.replicate n c0)) +
          face.advance kerning ligatures c : ℤ) : ℚ) * (size : ℚ) := by
      have h1 : ((totalAdvance face kerning ligatures
          (String.mk (List.replicate n c0)) : ℤ) : ℚ) ≤
          ((totalAdvance face kerning ligatures (String.mk (List.replicate n c0)) +
            face.advance kerning ligatures c : ℤ) : ℚ) := by
        have := hadv
        push_cast
        linarith [(by exact_mod_cast hadv : (0 : ℚ) ≤
          (face.advance kerning ligatures c : ℚ))]
      exact mul_le_mul_of_nonneg_right h1 (by exact_mod_cast hsz)
    rw [div_eq_mul_inv, div_eq_mul_inv]
    exact mul_le_mul_of_nonneg_right hnum (inv_nonneg.mpr hu.le)

/-- Witness for C8 at a concrete cache: empty-string width 0 and appending
to "aa" at size 12. -/
theorem C8_width_empty_and_append_monotone_witness :
    calculate_width "" FontT.arial 7 oneEmCache true true = some 0 ∧
    ∃ w1 w2 : ℤ,
      calculate_width (String.mk (List.replicate 2 'a')) FontT.arial 12
        oneEmCache true true = some w1 ∧
      calculate_width (String.mk (List.replicate 2 'a' ++ ['b'])) FontT.arial 12
        oneEmCache true true = some w2 ∧
      w1 ≤ w2 :=
  ⟨C8_width_empty_and_append_monotone.1 FontT.arial 7 oneEmCache oneEmFace
      true true rfl,
    C8_width_empty_and_append_monotone.2 FontT.arial 12 oneEmCache oneEmFace
      true true 'a' 'b' 2 rfl (by decide) (by decide) (by decide)⟩

/-- C7 fails as stated: when the annotation detector raises after the
document was opened, `find_redactions` propagates the error without
reaching `doc.close()`, so the handle is not released on that exit path. -/
theorem C7_handle_release_counterexample :
    (find_redactions_run (Except.ok annotWitDoc) (fun _ => Except.error ())
        (fun d => Except.ok (findVectorRedactions d))
        (fun d => Except.ok (findImageRedactions 80 5 15 d))).opened = true ∧
    (find_redactions_run (Except.ok annotWitDoc) (fun _ => Except.error ())
        (fun d => Except.ok (findVectorRedactions d))
        (fun d => Except.ok (findImageRedactions 80 5 15 d))).closed = false :=
  ⟨rfl, rfl⟩

/-- C7 amended: in both `find_redactions` and `extract_font_info` the
document handle is closed before returning exactly when the call succeeds;
on any failure after opening, the error propagates before `doc.close()` is
reached.  On the success path the run model computes exactly
`find_redactions`. -/
theorem C7_handle_release_amended :
    (∀ (openR : Except Unit (List Page))
      (ann vec img : List Page → Except Unit (List RedactionBox)),
      ((find_redactions_run openR ann vec img).closed = true ↔
        ∃ r, (find_redactions_run openR ann vec img).result = Except.ok r)) ∧
    (∀ openR : Except Unit (List RawPage),
      ((extract_font_info_run openR).closed = true ↔
        ∃ r, (extract_font_info_run openR).result = Except.ok r)) ∧
    (∀ doc : List Page,
      find_redactions_run (Except.ok doc)
        (fun d => Except.ok (findAnnotationRedactions d))
        (fun d => Except.ok (findVectorRedactions d))
        (fun d => Except.ok (findImageRedactions 80 5 15 d)) =
        ⟨Except.ok (find_redactions doc), true, true⟩) := by
  refine ⟨?_, ?_, fun doc => rfl⟩
  · intro openR ann vec img
    unfold find_redactions_run
    cases openR with
    | error e => simp
    | ok doc =>
        cases ha : ann doc with
        | error e => simp [ha]
        | ok r1 =>
            cases hv : vec doc with
            | error e => simp [ha, hv]
            | ok r2 =>
                cases hi : img doc with
                | error e => simp [ha, hv, hi]
                | ok r3 => simp [ha, hv, hi]
  · intro openR
    unfold extract_font_info_run
    cases openR with
    | error e => simp
    | ok pages =>
        cases hc : collectPages pages with
        | error e => simp [hc]
        | ok pts => simp [hc]

end Unredact
